import Mathlib

/-!
# togo: the keyboard state machine of `main.go`

A shallow embedding of `model.Update` and `model.Save` from `src/main.go`,
together with the parts of the two Bubbles widgets (`list.Model`,
`textinput.Model`) that `Update` calls.

* The task slice operations of the list widget (`Items`, `Index`,
  `SelectedItem`, `RemoveItem`, `InsertItem`, `SetItem`) and the text field
  operations (`SetValue`, `Value`, `Focus`, insertion of typed characters) are
  modelled concretely.
* What the widgets do on their own account, namely where the list cursor lands
  after the widget re-paginates or handles a message, and how the text field
  edits on a key that is not a plain character, is taken as a parameter
  (`Widgets`).  None of it can touch the task slice.
* A Go panic is `none`.  `Save` is recorded as the document it hands to the
  data file; whether marshalling and writing succeed is a parameter as well
  (`Widgets.writeFile`), and a failed write is the panic of `Save`.
* The `tea.Cmd` values returned next to the model are not modelled.
-/

namespace Togo

/-! ## Data model -/

/-- The Go struct `item`: a description and a done flag. -/
structure item where
  Desc : String
  Done : Bool
deriving DecidableEq, Repr

/-- The Go struct `Data`: the document written to the data file. -/
structure Data where
  List : List item
deriving DecidableEq, Repr

/-! ## Messages -/

/-- The key types of `tea.Key` that this development distinguishes. -/
inductive KeyType where
  | KeyRunes | KeyEnter | KeyBackspace | KeyTab | KeyEsc
  | KeyUp | KeyDown | KeyLeft | KeyRight
  | KeyHome | KeyEnd | KeyPgUp | KeyPgDown | KeyDelete | KeyCtrlC
deriving DecidableEq, Repr

/-- The name table `keyNames` of the key types other than `KeyRunes`. -/
def keyNames : KeyType → String
  | .KeyRunes => ""
  | .KeyEnter => "enter"
  | .KeyBackspace => "backspace"
  | .KeyTab => "tab"
  | .KeyEsc => "esc"
  | .KeyUp => "up"
  | .KeyDown => "down"
  | .KeyLeft => "left"
  | .KeyRight => "right"
  | .KeyHome => "home"
  | .KeyEnd => "end"
  | .KeyPgUp => "pgup"
  | .KeyPgDown => "pgdown"
  | .KeyDelete => "delete"
  | .KeyCtrlC => "ctrl+c"

/-- The struct `tea.Key` (a `tea.KeyMsg`); `Typ` is its field `Type`. -/
structure Key where
  Typ : KeyType
  Runes : List Char
  Alt : Bool
deriving DecidableEq, Repr

/-- The method `Key.String`, the value `Update` switches on: an `alt+` prefix
when Alt is held, then the typed runes or the name of the key. -/
def Key.String (k : Key) : String :=
  (if k.Alt then "alt+" else "") ++
    (if k.Typ = KeyType.KeyRunes then String.mk k.Runes else keyNames k.Typ)

/-- A `tea.Msg`: a window resize, a key press, or any other message. -/
inductive Msg where
  | WindowSizeMsg (Width : Nat)
  | KeyMsg (k : Key)
  | other (tag : Nat)
deriving DecidableEq, Repr

/-! ## The text field (`textinput.Model`) -/

/-- The fields of `textinput.Model` that decide its value: the runes, the
cursor position and the focus flag. -/
structure TextInput where
  value : List Char
  pos : Nat
  focus : Bool
deriving DecidableEq, Repr

/-- The method `textinput.Model.Value`. -/
def TextInput.Value (t : TextInput) : String := String.mk t.value

/-- The method `textinput.Model.SetValue` (no character limit is configured):
the runes are replaced, and the cursor goes to the end when it was at 0 or
is now past the end. -/
def TextInput.SetValue (t : TextInput) (s : String) : TextInput :=
  let value := s.data
  { t with value := value,
           pos := if t.pos = 0 ∨ t.pos > value.length then value.length else t.pos }

/-- The method `textinput.Model.Focus`. -/
def TextInput.Focus (t : TextInput) : TextInput := { t with focus := true }

/-! ## The list widget (`list.Model`) -/

/-- The fields of `list.Model` that `Update` reads: the task slice, the
selected index as `Index()` reports it, and the width. -/
structure ListModel where
  items : List item
  index : Nat
  width : Nat
deriving DecidableEq, Repr

/-- The behaviour of what `Update` calls outside `main.go`: what the two
widgets keep to themselves, and the outcome of writing the data file. -/
structure Widgets where
  /-- Selected index after the list re-paginates, from the new task slice and
  the index before. -/
  updatePagination : List item → Nat → Nat
  /-- Selected index after `list.Model.Update` has handled a message. -/
  listUpdate : Msg → ListModel → Nat
  /-- The text field after `textinput.Model.Update` has handled a key that is
  not a plain typed character. -/
  textKey : Key → TextInput → TextInput
  /-- Whether `json.Marshal`, `os.Create` and `WriteString` all succeed on the
  document; when one fails `Save` panics. -/
  writeFile : Data → Bool

/-- The method `list.Model.Items`. -/
def ListModel.Items (l : ListModel) : List item := l.items

/-- The method `list.Model.Index`. -/
def ListModel.Index (l : ListModel) : Nat := l.index

/-- The method `list.Model.SelectedItem`: nil when the list is empty or the
index is past the end, the item at the index otherwise. -/
def ListModel.SelectedItem (l : ListModel) : Option item :=
  let i := l.Index
  if l.items.length = 0 ∨ l.items.length ≤ i then none else l.items[i]?

/-- The helper `removeItemFromSlice`: a no-op when the index is out of
bounds. -/
def removeItemFromSlice (i : List item) (index : Nat) : List item :=
  if index ≥ i.length then i else i.take index ++ i.drop (index + 1)

/-- The helper `insertItemIntoSlice`: appends when the index is at or past
the end. -/
def insertItemIntoSlice (items : List item) (it : item) (index : Nat) : List item :=
  if index ≥ items.length then items ++ [it]
  else items.take index ++ it :: items.drop index

/-- The method `list.Model.RemoveItem`. -/
def ListModel.RemoveItem (w : Widgets) (l : ListModel) (index : Nat) : ListModel :=
  let items := removeItemFromSlice l.items index
  { l with items := items, index := w.updatePagination items l.index }

/-- The method `list.Model.InsertItem`. -/
def ListModel.InsertItem (w : Widgets) (l : ListModel) (index : Nat) (it : item) : ListModel :=
  let items := insertItemIntoSlice l.items it index
  { l with items := items, index := w.updatePagination items l.index }

/-- The method `list.Model.SetItem`: the slice assignment `m.items[index] = item`,
which panics when the index is out of range. -/
def ListModel.SetItem (w : Widgets) (l : ListModel) (index : Nat) (it : item) :
    Option ListModel :=
  if index < l.items.length then
    let items := l.items.set index it
    some { l with items := items, index := w.updatePagination items l.index }
  else none

/-- The method `list.Model.SetWidth`. -/
def ListModel.SetWidth (w : Widgets) (l : ListModel) (v : Nat) : ListModel :=
  { l with width := v, index := w.updatePagination l.items l.index }

/-- The method `list.Model.Update`: only the cursor moves (filtering is
switched off in `main`). -/
def ListModel.Update (w : Widgets) (l : ListModel) (msg : Msg) : ListModel :=
  { l with index := w.listUpdate msg l }

/-- The method `textinput.Model.Update` on a key: nothing without focus; a
plain typed character (or pasted run of characters) is inserted at the cursor
and the cursor moves past it; every other key is the widget's own editing. -/
def TextInput.Update (w : Widgets) (t : TextInput) (k : Key) : TextInput :=
  if !t.focus then t
  else if k.Typ = KeyType.KeyRunes ∧ k.Alt = false then
    let value := t.value.take t.pos ++ (k.Runes ++ t.value.drop t.pos)
    { t with value := value, pos := min (t.pos + k.Runes.length) value.length }
  else w.textKey k t

/-! ## The model of `main.go` -/

/-- The Go struct `model`. -/
structure model where
  list : ListModel
  textInput : TextInput
  typing : Bool
  editing : Bool
  shouldClean : Bool
deriving DecidableEq, Repr

/-- The method `model.IsTyping`. -/
def model.IsTyping (m : model) : Bool := m.typing

/-- The method `model.IsEditing`. -/
def model.IsEditing (m : model) : Bool := m.editing

/-- The method `model.Save`: the document built by the loop over
`m.list.Items()`, one appended `item` per task, which is then marshalled and
written over the data file.  The result is the document written; `none` is the
panic on a failed marshal, create or write. -/
def model.Save (w : Widgets) (m : model) : Option Data :=
  let data : Data :=
    ⟨m.list.Items.foldl (fun acc obj => acc ++ [item.mk obj.Desc obj.Done]) []⟩
  if w.writeFile data then some data else none

/-- The `switch keypress` block of `model.Update`: the model after the case for
the key, and the documents written by `Save` on the way.  A panic is `none`. -/
def keySwitch (w : Widgets) (m : model) (k : Key) : Option (model × List Data) :=
  let keypress := k.String
  if keypress = "enter" then
    if !m.IsTyping then
      match m.list.SelectedItem with
      | some i =>
        let i : item := { i with Done := !i.Done }
        let newLocation := if !i.Done then 0 else m.list.Items.length
        let m : model := { m with list := m.list.RemoveItem w m.list.Index }
        let m : model := { m with list := m.list.InsertItem w newLocation i }
        match m.Save w with
        | some data => some (m, [data])
        | none => none
      | none => some (m, [])
    else
      let r : Option (model × List Data) :=
        if !m.IsEditing then
          let m : model :=
            { m with list := m.list.InsertItem w 0 ⟨m.textInput.Value, false⟩ }
          match m.Save w with
          | some data => some (m, [data])
          | none => none
        else
          match m.list.SelectedItem with
          | some i =>
            let i : item := { i with Desc := m.textInput.Value }
            match m.list.SetItem w m.list.Index i with
            | some l =>
              let m : model := { m with list := l }
              match m.Save w with
              | some data => some (m, [data])
              | none => none
            | none => none
          | none => some (m, [])
      match r with
      | some (m, ws) =>
        some ({ m with textInput := m.textInput.SetValue "", typing := false }, ws)
      | none => none
  else if keypress = "i" then
    if !m.IsTyping then
      some ({ m with typing := true, shouldClean := true }, [])
    else some (m, [])
  else if keypress = "d" then
    if !m.IsTyping then
      let m : model := { m with list := m.list.RemoveItem w m.list.Index }
      match m.Save w with
      | some data => some (m, [data])
      | none => none
    else some (m, [])
  else if keypress = "c" then
    if !m.IsTyping then
      match m.list.SelectedItem with
      | some i =>
        some ({ m with textInput := m.textInput.SetValue i.Desc,
                       editing := true, typing := true }, [])
      | none => none
    else some (m, [])
  else some (m, [])

/-- The method `model.Update`: the model after the message, and the documents
written by `Save` while it was handled, in order.  A panic is `none`. -/
def Update (w : Widgets) (m : model) (msg : Msg) : Option (model × List Data) :=
  match msg with
  | .WindowSizeMsg width =>
    some ({ m with list := m.list.SetWidth w width }, [])
  | .KeyMsg k =>
    match keySwitch w m k with
    | none => none
    | some (m, ws) =>
      if m.IsTyping then
        let t := m.textInput.Focus
        let t := t.Update w k
        let m : model := { m with textInput := t }
        let m : model :=
          if m.shouldClean then
            { m with textInput := m.textInput.SetValue "", shouldClean := false }
          else m
        some (m, ws)
      else
        some ({ m with list := m.list.Update w msg }, ws)
  | .other _ =>
    some ({ m with list := m.list.Update w msg }, [])

/-- The model `main` starts the program with: the loaded tasks in a fresh list
and an empty text field, all flags false. -/
def initModel (items : List item) : model :=
  { list := ⟨items, 0, 20⟩, textInput := ⟨[], 0, false⟩,
    typing := false, editing := false, shouldClean := false }

/-- The data file after an event: the last document written, or the earlier
content when nothing was written. -/
def fileAfter (file : Option Data) (ws : List Data) : Option Data :=
  match ws.getLast? with
  | some d => some d
  | none => file

/-- Feeding a sequence of messages through `Update`, threading the model and
the data file; a panic anywhere is `none`. -/
def run (w : Widgets) : model × Option Data → List Msg → Option (model × Option Data)
  | s, [] => some s
  | (m, file), msg :: rest =>
    match Update w m msg with
    | none => none
    | some (m1, ws) => run w (m1, fileAfter file ws) rest

/-- No done task precedes a not-done task. -/
def doneSuffix (l : List item) : Prop :=
  l.Pairwise (fun a b => a.Done = true → b.Done = true)

instance (l : List item) : Decidable (doneSuffix l) := by
  unfold doneSuffix; infer_instance

/-- A key press of one plain character. -/
def runeKey (c : Char) : Key := ⟨KeyType.KeyRunes, [c], false⟩

/-- The enter key. -/
def enterKey : Key := ⟨KeyType.KeyEnter, [], false⟩

/-- The surroundings used in the worked examples: a one-page list whose cursor
moves on `up` and `down` and otherwise stays on the nearest task, a text field
that deletes on `backspace` and ignores the other keys, and a data file that
can always be written. -/
def plainWidgets : Widgets where
  writeFile := fun _ => true
  updatePagination := fun _ index => index
  listUpdate := fun msg l =>
    match msg with
    | .KeyMsg k =>
      if k.String = "up" then l.index - 1
      else if k.String = "down" then min (l.index + 1) (l.items.length - 1)
      else min l.index (l.items.length - 1)
    | _ => l.index
  textKey := fun k t =>
    if k.String = "backspace" then
      { t with value := t.value.take (t.pos - 1) ++ t.value.drop t.pos, pos := t.pos - 1 }
    else t

/-! ## Helper lemmas -/

theorem foldl_append_items (l acc : List item) :
    l.foldl (fun acc obj => acc ++ [item.mk obj.Desc obj.Done]) acc = acc ++ l := by
  induction l generalizing acc with
  | nil => simp
  | cons a l ih => simp [List.foldl_cons, ih]

/-- The document `Save` writes is the task slice itself, and `Save` panics
exactly when that write fails. -/
theorem Save_eq (w : Widgets) (m : model) :
    m.Save w = if w.writeFile ⟨m.list.items⟩ = true then some ⟨m.list.items⟩ else none := by
  simp [model.Save, ListModel.Items, foldl_append_items]

theorem SelectedItem_eq (l : ListModel) : l.SelectedItem = l.items[l.index]? := by
  unfold ListModel.SelectedItem ListModel.Index
  by_cases h : l.items.length ≤ l.index
  · simp [h, List.getElem?_eq_none]
  · have h0 : l.items.length ≠ 0 := by omega
    simp [h, h0]

theorem index_lt_of_getElem? {l : List item} {i : Nat} {t : item}
    (h : l[i]? = some t) : i < l.length := by
  by_contra hc
  rw [List.getElem?_eq_none (by omega)] at h
  cases h

theorem removeItemFromSlice_lt (l : List item) (i : Nat) (h : i < l.length) :
    removeItemFromSlice l i = l.take i ++ l.drop (i + 1) := by
  simp [removeItemFromSlice, Nat.not_le.mpr h]

theorem removeItemFromSlice_length (l : List item) (i : Nat) (h : i < l.length) :
    (removeItemFromSlice l i).length + 1 = l.length := by
  rw [removeItemFromSlice_lt l i h]
  simp
  omega

theorem insertItemIntoSlice_zero (l : List item) (it : item) :
    insertItemIntoSlice l it 0 = it :: l := by
  cases l <;> simp [insertItemIntoSlice]

theorem insertItemIntoSlice_ge (l : List item) (it : item) (i : Nat) (h : l.length ≤ i) :
    insertItemIntoSlice l it i = l ++ [it] := by
  simp [insertItemIntoSlice, h]

/-! ## The claims -/

/-- C1: pressing `enter` while Browsing with a task selected flips the done flag
of that task and relocates it: the other tasks keep their order, and the
flipped task goes to the end when it became done and to index 0 when it became
not-done.  The data file is taken to be writable; otherwise `Save` panics. -/
theorem toggle_relocates (w : Widgets) (m : model) (k : Key) (t : item)
    (hw : ∀ d, w.writeFile d = true)
    (hk : k.String = "enter") (hb : m.typing = false)
    (hsel : m.list.items[m.list.index]? = some t) :
    ∃ m1 ws, Update w m (Msg.KeyMsg k) = some (m1, ws) ∧
      m1.list.items =
        (if t.Done = true then
          item.mk t.Desc false ::
            (m.list.items.take m.list.index ++ m.list.items.drop (m.list.index + 1))
         else
          (m.list.items.take m.list.index ++ m.list.items.drop (m.list.index + 1)) ++
            [item.mk t.Desc true]) ∧
      m1.typing = false := by
  have hlt := index_lt_of_getElem? hsel
  have hrl := removeItemFromSlice_length m.list.items m.list.index hlt
  have hr := removeItemFromSlice_lt m.list.items m.list.index hlt
  cases hd : t.Done
  · simp [Update, keySwitch, hk, hb, model.IsTyping, SelectedItem_eq, hsel, hd,
      ListModel.RemoveItem, ListModel.InsertItem, ListModel.Items, ListModel.Index,
      ListModel.Update, Save_eq, hw]
    rw [insertItemIntoSlice_ge _ _ _ (by omega), hr]
    simp
  · simp [Update, keySwitch, hk, hb, model.IsTyping, SelectedItem_eq, hsel, hd,
      ListModel.RemoveItem, ListModel.InsertItem, ListModel.Items, ListModel.Index,
      ListModel.Update, insertItemIntoSlice_zero, hr, Save_eq, hw]

theorem toggle_relocates_witness :
    ∃ m1 ws, Update plainWidgets (initModel [⟨"A", false⟩, ⟨"B", false⟩])
        (Msg.KeyMsg enterKey) = some (m1, ws) ∧
      m1.list.items = [⟨"B", false⟩, ⟨"A", true⟩] ∧ m1.typing = false := by
  simpa [initModel] using
    toggle_relocates plainWidgets (initModel [⟨"A", false⟩, ⟨"B", false⟩]) enterKey
      ⟨"A", false⟩ (fun _ => rfl) (by decide) rfl rfl

/-- C2: pressing `enter` while Composing puts the task made of the text buffer,
not done, at index 0 in front of the previous tasks, clears the buffer and
returns to Browsing; an empty buffer is no exception.  The data file is taken
to be writable; otherwise `Save` panics. -/
theorem compose_enter_inserts (w : Widgets) (m : model) (k : Key)
    (hw : ∀ d, w.writeFile d = true)
    (hk : k.String = "enter") (ht : m.typing = true) (he : m.editing = false) :
    ∃ m1 ws, Update w m (Msg.KeyMsg k) = some (m1, ws) ∧
      m1.list.items = item.mk m.textInput.Value false :: m.list.items ∧
      m1.textInput.Value = "" ∧ m1.typing = false ∧ m1.editing = false := by
  simp [Update, keySwitch, hk, ht, he, model.IsTyping, model.IsEditing,
    ListModel.InsertItem, ListModel.Update, insertItemIntoSlice_zero,
    TextInput.SetValue, TextInput.Value, Save_eq, hw]

theorem compose_enter_inserts_witness :
    run plainWidgets (initModel [], none)
        (Msg.KeyMsg (runeKey 'i') :: "buy milk".data.map (fun c => Msg.KeyMsg (runeKey c))) =
      some ({ initModel [] with typing := true, textInput := ⟨"buy milk".data, 8, true⟩ },
        none) ∧
    ∃ m1 ws, Update plainWidgets
        { initModel [] with typing := true, textInput := ⟨"buy milk".data, 8, true⟩ }
        (Msg.KeyMsg enterKey) = some (m1, ws) ∧
      m1.list.items = [⟨"buy milk", false⟩] ∧
      m1.textInput.Value = "" ∧ m1.typing = false ∧ m1.editing = false := by
  refine ⟨by decide, ?_⟩
  simpa [initModel, TextInput.Value] using
    compose_enter_inserts plainWidgets
      { initModel [] with typing := true, textInput := ⟨"buy milk".data, 8, true⟩ }
      enterKey (fun _ => rfl) (by decide) rfl rfl

/-- C4: pressing `d` while Browsing with the task at index k selected removes
exactly that task: the result is the tasks before k followed by the tasks after
k, one task shorter.  The data file is taken to be writable; otherwise `Save`
panics. -/
theorem d_removes_selected (w : Widgets) (m : model) (k : Key) (t : item)
    (hw : ∀ d, w.writeFile d = true)
    (hk : k.String = "d") (hb : m.typing = false)
    (hsel : m.list.items[m.list.index]? = some t) :
    ∃ m1 ws, Update w m (Msg.KeyMsg k) = some (m1, ws) ∧
      m1.list.items =
        m.list.items.take m.list.index ++ m.list.items.drop (m.list.index + 1) ∧
      m1.list.items.length + 1 = m.list.items.length := by
  have hlt := index_lt_of_getElem? hsel
  have hrl := removeItemFromSlice_length m.list.items m.list.index hlt
  have hr := removeItemFromSlice_lt m.list.items m.list.index hlt
  simp [Update, keySwitch, hk, hb, model.IsTyping, ListModel.RemoveItem,
    ListModel.Index, ListModel.Update, Save_eq, hw]
  exact ⟨hr, hrl⟩

theorem d_removes_selected_witness :
    ∃ m1 ws, Update plainWidgets (initModel [⟨"A", false⟩, ⟨"B", true⟩])
        (Msg.KeyMsg (runeKey 'd')) = some (m1, ws) ∧
      m1.list.items = [⟨"B", true⟩] ∧ m1.list.items.length + 1 = 2 := by
  simpa [initModel] using
    d_removes_selected plainWidgets (initModel [⟨"A", false⟩, ⟨"B", true⟩]) (runeKey 'd')
      ⟨"A", false⟩ (fun _ => rfl) (by decide) rfl rfl

/-- C5: pressing `enter` while Editing with the task at index k selected
replaces only the description of that task by the text buffer: the task keeps
its done flag and its index, the length and every other task are unchanged,
the buffer is cleared and typing ends.  The data file is taken to be writable;
otherwise `Save` panics. -/
theorem edit_enter_replaces_desc (w : Widgets) (m : model) (k : Key) (t : item)
    (hw : ∀ d, w.writeFile d = true)
    (hk : k.String = "enter") (ht : m.typing = true) (he : m.editing = true)
    (hsel : m.list.items[m.list.index]? = some t) :
    ∃ m1 ws, Update w m (Msg.KeyMsg k) = some (m1, ws) ∧
      m1.list.items = m.list.items.set m.list.index ⟨m.textInput.Value, t.Done⟩ ∧
      m1.list.items.length = m.list.items.length ∧
      m1.list.items[m.list.index]? = some ⟨m.textInput.Value, t.Done⟩ ∧
      (∀ j, j ≠ m.list.index → m1.list.items[j]? = m.list.items[j]?) ∧
      m1.textInput.Value = "" ∧ m1.typing = false := by
  have hlt := index_lt_of_getElem? hsel
  simp [Update, keySwitch, hk, ht, he, model.IsTyping, model.IsEditing, SelectedItem_eq,
    hsel, ListModel.SetItem, ListModel.Index, hlt, ListModel.Update,
    TextInput.SetValue, TextInput.Value, Save_eq, hw]
  intro j hj
  simp [List.getElem?_set, Ne.symm hj]

theorem edit_enter_replaces_desc_witness :
    ∃ m1 ws, Update plainWidgets
        { initModel [⟨"A", false⟩, ⟨"B", true⟩] with
            typing := true, editing := true, textInput := ⟨"Ax".data, 2, true⟩ }
        (Msg.KeyMsg enterKey) = some (m1, ws) ∧
      m1.list.items = [⟨"Ax", false⟩, ⟨"B", true⟩] ∧
      m1.textInput.Value = "" ∧ m1.typing = false := by
  obtain ⟨m1, ws, h, hi, _, _, _, hv, ht⟩ :=
    edit_enter_replaces_desc plainWidgets
      { initModel [⟨"A", false⟩, ⟨"B", true⟩] with
          typing := true, editing := true, textInput := ⟨"Ax".data, 2, true⟩ }
      enterKey ⟨"A", false⟩ (fun _ => rfl) (by decide) rfl rfl rfl
  exact ⟨m1, ws, h, by simpa [initModel, TextInput.Value] using hi, hv, ht⟩

/-- What one pass through the key switch can do to the task slice, and what it
writes: nothing and no write, or one of the four mutations followed by one
successful write of the resulting slice. -/
theorem keySwitch_effect (w : Widgets) (m m1 : model) (k : Key) (ws : List Data)
    (h : keySwitch w m k = some (m1, ws)) :
    (m1.list.items = m.list.items ∧ ws = []) ∨
    (ws = [⟨m1.list.items⟩] ∧ w.writeFile ⟨m1.list.items⟩ = true ∧
      ((∃ t, m.list.items[m.list.index]? = some t ∧
          m1.list.items = insertItemIntoSlice (removeItemFromSlice m.list.items m.list.index)
            ⟨t.Desc, !t.Done⟩ (if t.Done = true then 0 else m.list.items.length)) ∨
       m1.list.items = item.mk m.textInput.Value false :: m.list.items ∨
       m1.list.items = removeItemFromSlice m.list.items m.list.index ∨
       (∃ t, m.list.items[m.list.index]? = some t ∧
          m1.list.items = m.list.items.set m.list.index ⟨m.textInput.Value, t.Done⟩))) := by
  unfold keySwitch at h
  simp only [model.IsTyping, model.IsEditing, SelectedItem_eq, ListModel.Index,
    ListModel.Items, Save_eq] at h
  split_ifs at h
  all_goals
    cases hs : m.list.items[m.list.index]? with
    | none =>
      simp [hs, ListModel.SetItem, ListModel.InsertItem, ListModel.RemoveItem,
        insertItemIntoSlice_zero] at h <;>
      (obtain ⟨rfl, rfl⟩ := h
       simp_all [insertItemIntoSlice_zero, ListModel.InsertItem, ListModel.RemoveItem])
    | some t =>
      have hlt := index_lt_of_getElem? hs
      simp [hs, ListModel.SetItem, ListModel.InsertItem, ListModel.RemoveItem,
        insertItemIntoSlice_zero, hlt] at h
      try split_ifs at h with hwf
      all_goals try simp at h
      all_goals
        obtain ⟨rfl, rfl⟩ := h
        simp_all [insertItemIntoSlice_zero, ListModel.InsertItem, ListModel.RemoveItem]

/-- After the key switch, `Update` hands the key to one of the widgets; neither
touches the task slice or writes. -/
theorem Update_key_items (w : Widgets) (m m1 : model) (k : Key) (ws : List Data)
    (h : Update w m (Msg.KeyMsg k) = some (m1, ws)) :
    ∃ m0, keySwitch w m k = some (m0, ws) ∧ m1.list.items = m0.list.items := by
  unfold Update at h
  cases hk : keySwitch w m k with
  | none => simp [hk] at h
  | some r =>
    obtain ⟨m0, ws0⟩ := r
    simp only [hk] at h
    refine ⟨m0, ?_, ?_⟩
    · split_ifs at h <;> simp at h <;> simp [h.2]
    · split_ifs at h <;> simp at h <;> simp [← h.1, ListModel.Update]

/-- Every message leaves the task slice alone with no write, or performs one
of the four mutations and then writes the resulting slice once. -/
theorem Update_effect (w : Widgets) (m m1 : model) (msg : Msg) (ws : List Data)
    (h : Update w m msg = some (m1, ws)) :
    (m1.list.items = m.list.items ∧ ws = []) ∨
    (ws = [⟨m1.list.items⟩] ∧ w.writeFile ⟨m1.list.items⟩ = true ∧
      ((∃ t, m.list.items[m.list.index]? = some t ∧
          m1.list.items = insertItemIntoSlice (removeItemFromSlice m.list.items m.list.index)
            ⟨t.Desc, !t.Done⟩ (if t.Done = true then 0 else m.list.items.length)) ∨
       m1.list.items = item.mk m.textInput.Value false :: m.list.items ∨
       m1.list.items = removeItemFromSlice m.list.items m.list.index ∨
       (∃ t, m.list.items[m.list.index]? = some t ∧
          m1.list.items = m.list.items.set m.list.index ⟨m.textInput.Value, t.Done⟩))) := by
  cases msg with
  | WindowSizeMsg v =>
    simp [Update, ListModel.SetWidth] at h
    obtain ⟨rfl, rfl⟩ := h
    simp
  | other tag =>
    simp [Update, ListModel.Update] at h
    obtain ⟨rfl, rfl⟩ := h
    simp
  | KeyMsg k =>
    obtain ⟨m0, h0, hi⟩ := Update_key_items w m m1 k ws h
    rw [hi]
    exact keySwitch_effect w m m0 k ws h0

theorem removeItemFromSlice_sublist (l : List item) (i : Nat) :
    (removeItemFromSlice l i).Sublist l := by
  unfold removeItemFromSlice
  split_ifs
  · exact List.Sublist.refl l
  · rw [← List.eraseIdx_eq_take_drop_succ]
    exact List.eraseIdx_sublist l i

theorem map_Done_set (l : List item) (i : Nat) (t : item) (v : String)
    (h : l[i]? = some t) :
    (l.set i ⟨v, t.Done⟩).map (fun a => a.Done) = l.map (fun a => a.Done) := by
  induction l generalizing i with
  | nil => simp
  | cons a l ih =>
    cases i with
    | zero =>
      simp at h
      simp [h]
    | succ i =>
      simp at h
      simp [ih i h]

theorem doneSuffix_iff_map (l : List item) :
    doneSuffix l ↔ (l.map (fun a => a.Done)).Pairwise (fun a b => a = true → b = true) := by
  simp [doneSuffix, List.pairwise_map]

theorem doneSuffix_toggle (l : List item) (t : item) (i : Nat) (h : doneSuffix l) :
    doneSuffix (insertItemIntoSlice (removeItemFromSlice l i) ⟨t.Desc, !t.Done⟩
      (if t.Done = true then 0 else l.length)) := by
  have hr : doneSuffix (removeItemFromSlice l i) :=
    List.Pairwise.sublist (removeItemFromSlice_sublist l i) h
  have hlen : (removeItemFromSlice l i).length ≤ l.length :=
    (removeItemFromSlice_sublist l i).length_le
  cases hd : t.Done
  · simp only [Bool.false_eq_true, if_false, Bool.not_false]
    rw [insertItemIntoSlice_ge _ _ _ hlen]
    unfold doneSuffix at hr ⊢
    rw [List.pairwise_append]
    refine ⟨hr, by simp, ?_⟩
    intro a _ b hb _
    simp at hb
    simp [hb]
  · simp only [if_true, Bool.not_true]
    rw [insertItemIntoSlice_zero]
    unfold doneSuffix at hr ⊢
    rw [List.pairwise_cons]
    refine ⟨?_, hr⟩
    intro b _ hf
    simp at hf

/-- C3: whenever handling a message changes the task slice, `Save` runs once in
that same event, after the mutation, and the document it writes (what `Save`
yields on the resulting model) is the whole resulting slice, so the data file
then equals the list in memory. -/
theorem mutation_is_persisted (w : Widgets) (m m1 : model) (msg : Msg) (ws : List Data)
    (file : Option Data) (h : Update w m msg = some (m1, ws))
    (hne : m1.list.items ≠ m.list.items) :
    some ws = (m1.Save w).map (fun d => [d]) ∧ m1.Save w = some ⟨m1.list.items⟩ ∧
      fileAfter file ws = some ⟨m1.list.items⟩ := by
  rcases Update_effect w m m1 msg ws h with ⟨he, _⟩ | ⟨hw, hwf, _⟩
  · exact absurd he hne
  · simp [hw, hwf, Save_eq, fileAfter]

theorem mutation_is_persisted_witness :
    Update plainWidgets (initModel [⟨"A", false⟩, ⟨"B", false⟩]) (Msg.KeyMsg enterKey) =
        some (initModel [⟨"B", false⟩, ⟨"A", true⟩], [⟨[⟨"B", false⟩, ⟨"A", true⟩]⟩]) ∧
      fileAfter none [⟨[⟨"B", false⟩, ⟨"A", true⟩]⟩] = some ⟨[⟨"B", false⟩, ⟨"A", true⟩]⟩ :=
  ⟨by decide,
   (mutation_is_persisted plainWidgets (initModel [⟨"A", false⟩, ⟨"B", false⟩])
      (initModel [⟨"B", false⟩, ⟨"A", true⟩]) (Msg.KeyMsg enterKey)
      [⟨[⟨"B", false⟩, ⟨"A", true⟩]⟩] none (by decide) (by decide)).2.2⟩

theorem doneSuffix_Update (w : Widgets) (m m1 : model) (msg : Msg) (ws : List Data)
    (hs : doneSuffix m.list.items) (h : Update w m msg = some (m1, ws)) :
    doneSuffix m1.list.items := by
  rcases Update_effect w m m1 msg ws h with
    ⟨he, _⟩ | ⟨_, _, ⟨t, _, he⟩ | he | he | ⟨t, ht, he⟩⟩
  · rw [he]; exact hs
  · rw [he]; exact doneSuffix_toggle _ t _ hs
  · rw [he]
    unfold doneSuffix at hs ⊢
    rw [List.pairwise_cons]
    exact ⟨fun b _ hf => by simp at hf, hs⟩
  · rw [he]
    exact List.Pairwise.sublist (removeItemFromSlice_sublist _ _) hs
  · rw [he, doneSuffix_iff_map, map_Done_set _ _ t _ ht, ← doneSuffix_iff_map]
    exact hs

theorem doneSuffix_run (w : Widgets) (msgs : List Msg) (m m1 : model) (file file1 : Option Data)
    (hs : doneSuffix m.list.items) (h : run w (m, file) msgs = some (m1, file1)) :
    doneSuffix m1.list.items := by
  induction msgs generalizing m file with
  | nil =>
    simp [run] at h
    rw [← h.1]; exact hs
  | cons msg rest ih =>
    simp only [run] at h
    cases hu : Update w m msg with
    | none => simp [hu] at h
    | some r =>
      obtain ⟨m0, ws⟩ := r
      simp only [hu] at h
      exact ih m0 _ (doneSuffix_Update w m m0 msg ws hs hu) h

/-- C6: done tasks always form a suffix of the list.  If no done task precedes
a not-done task, then after any message, in any mode, that is still so; hence
it holds in every state reached from the empty list by any sequence of
messages. -/
theorem doneSuffix_invariant (w : Widgets) :
    (∀ (m m1 : model) (msg : Msg) (ws : List Data),
      doneSuffix m.list.items → Update w m msg = some (m1, ws) →
        doneSuffix m1.list.items) ∧
    (∀ (msgs : List Msg) (m1 : model) (file1 : Option Data),
      run w (initModel [], none) msgs = some (m1, file1) → doneSuffix m1.list.items) :=
  ⟨fun m m1 msg ws hs h => doneSuffix_Update w m m1 msg ws hs h,
   fun msgs m1 file1 h =>
    doneSuffix_run w msgs (initModel []) m1 none file1 (by simp [initModel, doneSuffix]) h⟩

theorem doneSuffix_invariant_witness :
    doneSuffix [⟨"A", false⟩, ⟨"B", true⟩] ∧
    Update plainWidgets (initModel [⟨"A", false⟩, ⟨"B", true⟩]) (Msg.KeyMsg enterKey) =
      some (initModel [⟨"B", true⟩, ⟨"A", true⟩], [⟨[⟨"B", true⟩, ⟨"A", true⟩]⟩]) ∧
    doneSuffix [⟨"B", true⟩, ⟨"A", true⟩] ∧
    run plainWidgets (initModel [], none)
        [Msg.KeyMsg (runeKey 'i'), Msg.KeyMsg (runeKey 'x'), Msg.KeyMsg enterKey,
         Msg.KeyMsg enterKey, Msg.KeyMsg (runeKey 'i'), Msg.KeyMsg enterKey] =
      some ({ initModel [⟨"", false⟩, ⟨"x", true⟩] with textInput := ⟨[], 0, true⟩ },
        some ⟨[⟨"", false⟩, ⟨"x", true⟩]⟩) ∧
    doneSuffix [⟨"", false⟩, ⟨"x", true⟩] :=
  ⟨by decide, by decide,
   (doneSuffix_invariant plainWidgets).1 (initModel [⟨"A", false⟩, ⟨"B", true⟩])
      (initModel [⟨"B", true⟩, ⟨"A", true⟩]) (Msg.KeyMsg enterKey)
      [⟨[⟨"B", true⟩, ⟨"A", true⟩]⟩] (by decide) (by decide),
   by decide,
   (doneSuffix_invariant plainWidgets).2
      [Msg.KeyMsg (runeKey 'i'), Msg.KeyMsg (runeKey 'x'), Msg.KeyMsg enterKey,
       Msg.KeyMsg enterKey, Msg.KeyMsg (runeKey 'i'), Msg.KeyMsg enterKey]
      { initModel [⟨"", false⟩, ⟨"x", true⟩] with textInput := ⟨[], 0, true⟩ }
      (some ⟨[⟨"", false⟩, ⟨"x", true⟩]⟩) (by decide)⟩

/-- Pressing `i` while Browsing: typing begins with an empty buffer, the list is
untouched, nothing is written, and the editing flag is left as it was. -/
theorem Update_i_browsing (w : Widgets) (m : model) (hb : m.typing = false) :
    ∃ m1, Update w m (Msg.KeyMsg (runeKey 'i')) = some (m1, []) ∧
      m1.typing = true ∧ m1.editing = m.editing ∧ m1.list = m.list ∧
      m1.textInput.Value = "" := by
  have hi : (runeKey 'i').String = "i" := by decide
  simp [Update, keySwitch, hi, hb, model.IsTyping, TextInput.SetValue, TextInput.Value]

/-- Pressing `enter` while typing with the editing flag set never inserts: the
list keeps its length, typing ends, and the editing flag stays set (the data
file being writable). -/
theorem Update_enter_editing (w : Widgets) (m : model)
    (hw : ∀ d, w.writeFile d = true)
    (ht : m.typing = true) (he : m.editing = true) :
    ∃ m1 ws, Update w m (Msg.KeyMsg enterKey) = some (m1, ws) ∧
      m1.typing = false ∧ m1.editing = true ∧
      m1.list.items.length = m.list.items.length := by
  have hk : enterKey.String = "enter" := by decide
  cases hs : m.list.items[m.list.index]? with
  | none =>
    simp [Update, keySwitch, hk, ht, he, model.IsTyping, model.IsEditing, SelectedItem_eq,
      hs, ListModel.Update]
  | some t =>
    have hlt := index_lt_of_getElem? hs
    simp [Update, keySwitch, hk, ht, he, model.IsTyping, model.IsEditing, SelectedItem_eq,
      hs, ListModel.Update, ListModel.SetItem, ListModel.Index, hlt, Save_eq, hw]

/-- Pressing `c` while Browsing with a task selected: typing and editing begin,
the list is untouched and nothing is written, but the key itself is then typed
into the pre-filled buffer, which ends one character longer than the
description. -/
theorem Update_c_selected (w : Widgets) (m : model) (t : item)
    (hb : m.typing = false) (hsc : m.shouldClean = false)
    (hsel : m.list.items[m.list.index]? = some t) :
    ∃ m1, Update w m (Msg.KeyMsg (runeKey 'c')) = some (m1, []) ∧
      m1.typing = true ∧ m1.editing = true ∧ m1.list = m.list ∧
      m1.textInput.value.length = t.Desc.data.length + 1 ∧
      (m.textInput.pos = 0 → m1.textInput.value = t.Desc.data ++ ['c']) := by
  have hc : (runeKey 'c').String = "c" := by decide
  have hT : (runeKey 'c').Typ = KeyType.KeyRunes := rfl
  have hR : (runeKey 'c').Runes = ['c'] := rfl
  have hA : (runeKey 'c').Alt = false := rfl
  simp [Update, keySwitch, hc, hb, model.IsTyping, SelectedItem_eq, hsel,
    TextInput.SetValue, TextInput.Focus, TextInput.Update, hT, hR, hA, hsc]
  refine ⟨by split_ifs <;> omega, fun h0 => ?_⟩
  simp only [h0, true_or, if_true]
  have hlen : t.Desc.length = t.Desc.data.length := rfl
  rw [hlen, List.take_length, List.drop_length]

/-- C7, evaluated at the failing input: from the start state with the one task
A, after `c`, `enter` (an edit) and then `i`, the machine is typing with the
editing flag still set, and the next `enter` does not insert a task: the list
still has one task.  This holds whatever the widgets do with the cursor, as
long as the data file can be written. -/
theorem i_after_edit_still_editing (w : Widgets) (hw : ∀ d, w.writeFile d = true) :
    ∃ m3 file3,
      run w (initModel [⟨"A", false⟩], none)
        [Msg.KeyMsg (runeKey 'c'), Msg.KeyMsg enterKey, Msg.KeyMsg (runeKey 'i')] =
          some (m3, file3) ∧
      m3.typing = true ∧ m3.editing = true ∧ m3.textInput.Value = "" ∧
      m3.list.items.length = 1 ∧
      ∃ m4 ws, Update w m3 (Msg.KeyMsg enterKey) = some (m4, ws) ∧
        m4.typing = false ∧ m4.list.items.length = 1 := by
  obtain ⟨m1, h1, ht1, he1, hl1, _, _⟩ :=
    Update_c_selected w (initModel [⟨"A", false⟩]) ⟨"A", false⟩ rfl rfl rfl
  obtain ⟨m2, ws2, h2, ht2, he2, hl2⟩ := Update_enter_editing w m1 hw ht1 he1
  obtain ⟨m3, h3, ht3, he3, hl3, hv3⟩ := Update_i_browsing w m2 ht2
  obtain ⟨m4, ws4, h4, ht4, _, hl4⟩ := Update_enter_editing w m3 hw ht3 (he3.trans he2)
  have hlen : m3.list.items.length = 1 := by
    rw [hl3, hl2, hl1]; rfl
  refine ⟨m3, fileAfter (fileAfter (fileAfter none []) ws2) [], ?_, ht3, he3.trans he2,
    hv3, hlen, m4, ws4, h4, ht4, hl4.trans hlen⟩
  simp [run, h1, h2, h3]

theorem i_after_edit_still_editing_witness :
    ∃ m3 file3,
      run plainWidgets (initModel [⟨"A", false⟩], none)
        [Msg.KeyMsg (runeKey 'c'), Msg.KeyMsg enterKey, Msg.KeyMsg (runeKey 'i')] =
          some (m3, file3) ∧
      m3.typing = true ∧ m3.editing = true ∧ m3.textInput.Value = "" ∧
      m3.list.items.length = 1 ∧
      ∃ m4 ws, Update plainWidgets m3 (Msg.KeyMsg enterKey) = some (m4, ws) ∧
        m4.typing = false ∧ m4.list.items.length = 1 :=
  i_after_edit_still_editing plainWidgets (fun _ => rfl)

/-- C8, evaluated: pressing `c` while Browsing an empty list panics (the
unchecked type assertion on the nil selected item), so the key is not a no-op. -/
theorem c_on_empty_list_panics (w : Widgets) (m : model) (k : Key)
    (hk : k.String = "c") (hb : m.typing = false) (he : m.list.items = []) :
    Update w m (Msg.KeyMsg k) = none := by
  simp [Update, keySwitch, hk, hb, model.IsTyping, SelectedItem_eq, he]

theorem c_on_empty_list_panics_witness :
    Update plainWidgets (initModel []) (Msg.KeyMsg (runeKey 'c')) = none :=
  c_on_empty_list_panics plainWidgets (initModel []) (runeKey 'c') (by decide) rfl rfl

/-- C9, evaluated: pressing `d` while Browsing an empty list still calls `Save`.
When the data file can be written the list stays empty and the empty document
is written once; when it cannot, `Save` panics.  Either way the key is not a
no-op without a write. -/
theorem d_on_empty_list_saves (w : Widgets) (m : model) (k : Key)
    (hk : k.String = "d") (hb : m.typing = false) (he : m.list.items = []) :
    (w.writeFile ⟨[]⟩ = true →
      ∃ m1, Update w m (Msg.KeyMsg k) = some (m1, [⟨[]⟩]) ∧ m1.list.items = []) ∧
    (w.writeFile ⟨[]⟩ = false → Update w m (Msg.KeyMsg k) = none) := by
  constructor <;> intro hwf <;>
    simp [Update, keySwitch, hk, hb, model.IsTyping, ListModel.RemoveItem,
      removeItemFromSlice, ListModel.Update, Save_eq, he, hwf]

theorem d_on_empty_list_saves_witness :
    ∃ m1, Update plainWidgets (initModel []) (Msg.KeyMsg (runeKey 'd')) = some (m1, [⟨[]⟩]) ∧
      m1.list.items = [] :=
  (d_on_empty_list_saves plainWidgets (initModel []) (runeKey 'd') (by decide) rfl rfl).1 rfl

/-- C10, evaluated: pressing `c` while Browsing with a task selected enters
Editing with the list untouched and nothing written, but the text buffer is not
the description: the `c` itself has been typed into it.  From an empty buffer
the value is the description followed by `c`. -/
theorem c_prefill_has_extra_char (w : Widgets) (m : model) (t : item)
    (hb : m.typing = false) (hsc : m.shouldClean = false)
    (hsel : m.list.items[m.list.index]? = some t) :
    ∃ m1, Update w m (Msg.KeyMsg (runeKey 'c')) = some (m1, []) ∧
      m1.typing = true ∧ m1.editing = true ∧ m1.list.items = m.list.items ∧
      m1.textInput.Value ≠ t.Desc ∧
      (m.textInput.pos = 0 → m1.textInput.Value = t.Desc ++ "c") := by
  obtain ⟨m1, h1, ht1, he1, hl1, hlen, hv⟩ := Update_c_selected w m t hb hsc hsel
  refine ⟨m1, h1, ht1, he1, by rw [hl1], ?_, ?_⟩
  · intro hcon
    have : m1.textInput.value = t.Desc.data := by
      rw [← hcon]; rfl
    rw [this] at hlen
    omega
  · intro h0
    apply String.ext
    simp [TextInput.Value, hv h0]

theorem c_prefill_has_extra_char_witness :
    ∃ m1, Update plainWidgets (initModel [⟨"A", false⟩]) (Msg.KeyMsg (runeKey 'c')) =
        some (m1, []) ∧
      m1.typing = true ∧ m1.editing = true ∧ m1.list.items = [⟨"A", false⟩] ∧
      m1.textInput.Value ≠ "A" ∧ m1.textInput.Value = "Ac" := by
  obtain ⟨m1, h, ht, he, hl, hne, hv⟩ :=
    c_prefill_has_extra_char plainWidgets (initModel [⟨"A", false⟩]) ⟨"A", false⟩ rfl rfl rfl
  exact ⟨m1, h, ht, he, hl, hne, hv rfl⟩

end Togo
